import Mathlib

/-!
Verification of the BS-Uebersetzer document-translation pipeline.

Shallow embedding of the Python sources:
  * `src/llm_translate.py` — character-based chunking (`split_into_chunks`,
    `find_last_period`), chunk translation driver (`translate_chunks`),
    delimiter redistribution (`split_text`), and package reassembly
    (`translate_document`).
  * `src/xml_translate.py` — the per-paragraph run-merging walk of
    `process_xml` and the package rewrite of `translate_docx`.
  * `src/translator/base_translator.py` — prompt clause rendering
    (`_get_glossary_prompt`, `_get_tone_prompt`), response post-processing
    (`_process_response`) and the config-mutating `translate_text`.
  * `src/translator/pdf_translator.py` — `_create_translation_context`.

Texts are modelled as `List Char`; sizes and offsets as `Nat` (all sizes in
the source are character counts). External capabilities (the LLM call and
language detection) are modelled as oracle function parameters.
-/

/-- Python `max(start, e - overlap)` / `min(e + overlap, len)` backward scan of
`find_last_period` (src/llm_translate.py lines 50-57): scan indices from
`overlap_end - 1` down to `overlap_start` for a period character; on a hit
return the index plus one, otherwise return `overlap_end`. -/
def find_last_period (text : List Char) (start e overlap : Nat) : Nat :=
  match (List.range' (max start (e - overlap))
      (min (e + overlap) text.length - max start (e - overlap))).reverse.find?
      (fun i => text.getD i ' ' == '.') with
  | some i => i + 1
  | none => min (e + overlap) text.length

/-- Fuel-indexed embedding of the `while start < len(text)` loop of
`split_into_chunks` (src/llm_translate.py lines 32-48). Each iteration either
emits the final chunk `text[start:]` (when `start + max_length >= len`) or
cuts at `find_last_period` and continues from the cut. `none` means the fuel
ran out before the loop finished. -/
def splitGo (fuel : Nat) (text : List Char) (maxLength overlap start : Nat) :
    Option (List (List Char)) :=
  match fuel with
  | 0 => none
  | fuel + 1 =>
    if start < text.length then
      if text.length ≤ start + maxLength then
        some [text.drop start]
      else
        let cut := find_last_period text start (start + maxLength) overlap
        match splitGo fuel text maxLength overlap cut with
        | none => none
        | some rest => some ((text.drop start).take (cut - start) :: rest)
    else
      some []

/-- The splitter `split_into_chunks(text, max_length, overlap)` run with
enough fuel for one loop iteration per character plus one. -/
def split_into_chunks (text : List Char) (maxLength overlap : Nat) :
    Option (List (List Char)) :=
  splitGo (text.length + 1) text maxLength overlap 0

lemma find_last_period_progress (text : List Char) (start e overlap : Nat)
    (h1 : start < e) (h2 : e < text.length) :
    start < find_last_period text start e overlap ∧
      find_last_period text start e overlap ≤ text.length := by
  unfold find_last_period
  have hos : start ≤ max start (e - overlap) := Nat.le_max_left _ _
  have hosl : max start (e - overlap) ≤ text.length :=
    Nat.max_le.2 ⟨Nat.le_of_lt (h1.trans h2), (Nat.sub_le e overlap).trans (Nat.le_of_lt h2)⟩
  have hoe1 : start < min (e + overlap) text.length :=
    Nat.lt_min.2 ⟨Nat.lt_of_lt_of_le h1 (Nat.le_add_right e overlap), h1.trans h2⟩
  have hoe2 : min (e + overlap) text.length ≤ text.length := Nat.min_le_right _ _
  split
  · rename_i i hfind
    have hmem := List.mem_of_find?_eq_some hfind
    rw [List.mem_reverse] at hmem
    have hr := List.mem_range'_1.1 hmem
    constructor
    · omega
    · omega
  · exact ⟨hoe1, hoe2⟩

lemma splitGo_sound (text : List Char) (maxLength overlap : Nat) (hm : 1 ≤ maxLength) :
    ∀ fuel start, text.length - start < fuel →
      ∃ chunks, splitGo fuel text maxLength overlap start = some chunks ∧
        chunks.flatten = text.drop start := by
  intro fuel
  induction fuel with
  | zero => intro start h; exact absurd h (Nat.not_lt_zero _)
  | succ fuel ih =>
    intro start h
    by_cases hs : start < text.length
    · by_cases he : text.length ≤ start + maxLength
      · refine ⟨[text.drop start], ?_, by simp⟩
        simp [splitGo, hs, he]
      · have hprog := find_last_period_progress text start (start + maxLength) overlap
          (by omega) (by omega)
        set cut := find_last_period text start (start + maxLength) overlap with hcut
        obtain ⟨rest, hrest, hjoin⟩ := ih cut (by omega)
        refine ⟨(text.drop start).take (cut - start) :: rest, ?_, ?_⟩
        · simp only [splitGo, if_pos hs, if_neg he]
          rw [← hcut, hrest]
        · have hdd : rest.flatten = (text.drop start).drop (cut - start) := by
            rw [hjoin, List.drop_drop]
            congr 1
            omega
          rw [List.flatten_cons, hdd, List.take_append_drop]
    · refine ⟨[], ?_, ?_⟩
      · simp [splitGo, hs]
      · rw [List.drop_eq_nil_of_le (by omega)]
        rfl

/-- C5: for every text and every overlap, with a positive `max_length`, the
chunks produced by `split_into_chunks` concatenate, in order, to exactly the
input text: no character is lost or duplicated, and successive chunks are
contiguous and non-overlapping in the emitted stream. -/
theorem split_into_chunks_concat (text : List Char) (maxLength overlap : Nat)
    (hm : 1 ≤ maxLength) :
    ∃ chunks, split_into_chunks text maxLength overlap = some chunks ∧
      chunks.flatten = text := by
  obtain ⟨chunks, hc, hj⟩ :=
    splitGo_sound text maxLength overlap hm (text.length + 1) 0 (by omega)
  exact ⟨chunks, hc, by simpa using hj⟩

/-- Witness for C5 at the concrete text "ab. cd" with max length 3 and
overlap 2. -/
theorem split_into_chunks_concat_witness :
    ∃ chunks, split_into_chunks "ab. cd".toList 3 2 = some chunks ∧
      chunks.flatten = "ab. cd".toList :=
  split_into_chunks_concat "ab. cd".toList 3 2 (by decide)

/-- C6 counterexample: the empty text is shorter than a `max_length` of 5,
yet `split_into_chunks` returns the empty chunk list, not one chunk equal to
the (empty) text. -/
theorem split_into_chunks_empty_counterexample :
    split_into_chunks [] 5 2 = some [] ∧
      split_into_chunks [] 5 2 ≠ some [([] : List Char)] := by
  constructor <;> decide

/-- C6 amended: every nonempty text strictly shorter than `max_length` is
returned as exactly one chunk equal to the text (the empty text instead
yields no chunks, since the splitting loop never runs). -/
theorem split_into_chunks_single (text : List Char) (maxLength overlap : Nat)
    (h0 : text ≠ []) (h : text.length < maxLength) :
    split_into_chunks text maxLength overlap = some [text] := by
  have hlen : 0 < text.length := List.length_pos.2 h0
  simp only [split_into_chunks, splitGo, if_pos hlen]
  rw [if_pos (by omega)]
  simp

/-- Witness for C6 (amended) at the concrete text "hi" with max length 5. -/
theorem split_into_chunks_single_witness :
    split_into_chunks "hi".toList 5 2 = some ["hi".toList] :=
  split_into_chunks_single "hi".toList 5 2 (by decide) (by decide)

/-- C9: with a positive `max_length` (and any overlap), every cut returned by
the backward period search strictly exceeds the chunk start and never exceeds
the text length, so the splitting loop strictly advances and terminates
within `len(text) + 1` iterations; with `max_length = 0` the strict advance
fails (on the text "ab" with overlap 0 the cut equals the start and the loop
never finishes, for any amount of fuel). -/
theorem split_into_chunks_terminates (text : List Char) (maxLength overlap : Nat)
    (hm : 1 ≤ maxLength) :
    (∀ start, start + maxLength < text.length →
      start < find_last_period text start (start + maxLength) overlap ∧
        find_last_period text start (start + maxLength) overlap ≤ text.length) ∧
    (split_into_chunks text maxLength overlap).isSome ∧
    (∀ fuel, splitGo fuel ['a', 'b'] 0 0 0 = none) := by
  refine ⟨?_, ?_, ?_⟩
  · intro start hse
    exact find_last_period_progress text start (start + maxLength) overlap (by omega) hse
  · obtain ⟨chunks, hc, _⟩ :=
      splitGo_sound text maxLength overlap hm (text.length + 1) 0 (by omega)
    unfold split_into_chunks
    rw [hc]
    rfl
  · intro fuel
    induction fuel with
    | zero => rfl
    | succ n ih =>
      have hc : find_last_period ['a', 'b'] 0 (0 + 0) 0 = 0 := rfl
      simp only [splitGo, hc]
      rw [if_pos (by decide), if_neg (by decide), ih]

/-- Witness for C9 at the concrete text "ab. cd" with max length 3 and
overlap 2. -/
theorem split_into_chunks_terminates_witness :
    (split_into_chunks "ab. cd".toList 3 2).isSome :=
  (split_into_chunks_terminates "ab. cd".toList 3 2 (by decide)).2.1

/-- Python `text.split('#')` on a character list (src/llm_translate.py line
192): the empty text yields one empty part, and every hash character opens a
new part. -/
def splitOnHash : List Char → List (List Char)
  | [] => [[]]
  | c :: rest =>
    if c = '#' then [] :: splitOnHash rest
    else
      match splitOnHash rest with
      | [] => [[c]]
      | h :: t => (c :: h) :: t

/-- Embedding of `split_text(text, n_parts)` (src/llm_translate.py lines
190-203): split on the hash delimiter, pad with empty strings while there are
fewer parts than expected, and keep only the first `n_parts` parts when there
are more. -/
def split_text (text : List Char) (nParts : Nat) : List (List Char) :=
  let parts := splitOnHash text
  (parts ++ List.replicate (nParts - parts.length) []).take nParts

lemma splitOnHash_ne_nil (text : List Char) : splitOnHash text ≠ [] := by
  cases text with
  | nil => simp [splitOnHash]
  | cons c rest =>
    simp only [splitOnHash]
    split
    · simp
    · split <;> simp

/-- C8: for every translated text and expected part count, `split_text`
returns exactly `n_parts` strings; each returned position holds the
corresponding delimiter-split part when one exists and the empty string
otherwise, so a short split is padded, a long split is truncated, and an
exact split is returned unchanged. -/
theorem split_text_length (text : List Char) (nParts : Nat) :
    (split_text text nParts).length = nParts ∧
    ∀ i, i < nParts →
      (split_text text nParts).getD i [] = (splitOnHash text).getD i [] := by
  constructor
  · simp only [split_text, List.length_take, List.length_append, List.length_replicate]
    omega
  · intro i hi
    simp only [split_text]
    rw [List.getD_eq_getD_get?, List.getD_eq_getD_get?, List.get?_eq_getElem?,
      List.get?_eq_getElem?, List.getElem?_take_of_lt hi]
    by_cases hlen : i < (splitOnHash text).length
    · rw [List.getElem?_append_left hlen]
    · rw [List.getElem?_append_right (Nat.le_of_not_lt hlen),
        List.getElem?_eq_none (Nat.le_of_not_lt hlen), List.getElem?_replicate]
      split <;> rfl

/-- Witness for C8 at the concrete text "a#b" distributed over 2 parts. -/
theorem split_text_length_witness :
    (split_text "a#b".toList 2).length = 2 ∧
      (split_text "a#b".toList 2).getD 1 [] = (splitOnHash "a#b".toList).getD 1 [] :=
  ⟨(split_text_length "a#b".toList 2).1,
    (split_text_length "a#b".toList 2).2 1 (by decide)⟩

/-- Embedding of the loop of `translate_chunks` (src/llm_translate.py lines
109-127). The external call `translate_chunk` is an oracle indexed by the
chunk position; `none` or the empty string model the falsy results the code
tests with `if translated_chunk`. The rolling-context argument the code
passes to the capability is folded into the oracle, since it influences only
the capability's output, not the loop's control flow. On a falsy result the
code logs an error and returns `None` for the whole list. -/
def translateChunksGo (oracle : Nat → List Char → Option (List Char)) :
    Nat → List (List Char) → Option (List (List Char))
  | _, [] => some []
  | i, c :: rest =>
    match oracle i c with
    | none => none
    | some t =>
      if t = [] then none
      else
        match translateChunksGo oracle (i + 1) rest with
        | none => none
        | some ts => some (t :: ts)

/-- The driver `translate_chunks(chunks, ...)` starting at chunk index 0. -/
def translate_chunks (oracle : Nat → List Char → Option (List Char))
    (chunks : List (List Char)) : Option (List (List Char)) :=
  translateChunksGo oracle 0 chunks

lemma translateChunksGo_abort (oracle : Nat → List Char → Option (List Char)) :
    ∀ (chunks : List (List Char)) (base i : Nat), i < chunks.length →
      (oracle (base + i) (chunks.getD i []) = none ∨
        oracle (base + i) (chunks.getD i []) = some []) →
      translateChunksGo oracle base chunks = none := by
  intro chunks
  induction chunks with
  | nil => intro base i hi; exact absurd hi (by simp)
  | cons c rest ih =>
    intro base i hi hfail
    cases i with
    | zero =>
      have h0 : oracle base c = none ∨ oracle base c = some [] := by simpa using hfail
      cases h0 with
      | inl h => simp [translateChunksGo, h]
      | inr h => simp [translateChunksGo, h]
    | succ j =>
      have hrec := ih (base + 1) j (by simpa using hi) (by
        simpa [Nat.add_assoc, Nat.add_comm 1 j] using hfail)
      simp only [translateChunksGo, hrec]
      cases oracle base c with
      | none => rfl
      | some t =>
        by_cases ht : t = [] <;> simp [ht]

/-- C4 counterexample: with three chunks and a capability that fails on the
second one (index 1), `translate_chunks` yields no output at all — the first
chunk's translation is discarded and the second chunk does not keep its
original text in any output, instead of processing continuing. -/
theorem translate_chunks_counterexample :
    translate_chunks (fun i c => if i = 1 then none else some ('T' :: c))
      [['a'], ['b'], ['c']] = none := by
  rfl

/-- C4 amended: whenever the capability oracle returns no result (or an empty
result) for any chunk, `translate_chunks` aborts and returns `None` for the
whole document; no chunk keeps its original text in a returned output, and
there is no configuration under which processing continues past the failure. -/
theorem translate_chunks_abort (oracle : Nat → List Char → Option (List Char))
    (chunks : List (List Char)) (i : Nat) (hi : i < chunks.length)
    (hfail : oracle i (chunks.getD i []) = none ∨
      oracle i (chunks.getD i []) = some []) :
    translate_chunks oracle chunks = none := by
  have := translateChunksGo_abort oracle chunks 0 i hi (by simpa using hfail)
  simpa [translate_chunks] using this

/-- Witness for C4 (amended): a capability failing at index 1 of three chunks
makes the whole translation return nothing. -/
theorem translate_chunks_abort_witness :
    translate_chunks (fun i _ => if i = 1 then none else some ['T'])
      [['a'], ['b'], ['c']] = none :=
  translate_chunks_abort (fun i _ => if i = 1 then none else some ['T'])
    [['a'], ['b'], ['c']] 1 (by decide) (Or.inl (by decide))

/-- The archive path "word/document.xml" of the primary markup part. -/
def docPath : List Char := "word/document.xml".toList

/-- Embedding of the reassembly loop of `translate_document`
(src/llm_translate.py lines 181-188): every archive member is copied in
order; the member named "word/document.xml" is written with the translated
markup instead, under the same name. A package is the ordered list of
(member path, member bytes) pairs. -/
def translate_document_rezip (pkg : List (List Char × List Char))
    (translatedXml : List Char) : List (List Char × List Char) :=
  pkg.map (fun e => if e.1 = docPath then (docPath, translatedXml) else e)

/-- Membership test for the markup parts `translate_docx` processes
(src/xml_translate.py lines 222-231): the primary part plus any part under
word/ whose name starts with "header" or "footer" and ends with ".xml". -/
def isTargetPart (p : List Char) : Bool :=
  p == docPath ||
    (("word/header".toList == p.take 11 || "word/footer".toList == p.take 11) &&
      ".xml".toList == p.drop (p.length - 4))

/-- Embedding of `translate_docx` (src/xml_translate.py lines 203-249) at the
file-map level: the archive is extracted to a directory, `process_xml`
rewrites the targeted markup files in place (modelled by the `proc` oracle),
and every extracted file is rezipped under its original relative path. The
extract-then-walk round trip preserves the set of file members, so the
output package holds exactly the input members with only targeted parts
rewritten. -/
def translate_docx_parts (proc : List Char → List Char → List Char)
    (pkg : List (List Char × List Char)) : List (List Char × List Char) :=
  pkg.map (fun e => if isTargetPart e.1 then (e.1, proc e.1 e.2) else e)

/-- C1: both reassembly paths preserve the archive member paths exactly, and
every member other than the targeted markup parts keeps byte-identical
content: `translate_document` rewrites only "word/document.xml", and
`translate_docx` rewrites only the targeted markup parts (document body plus
header/footer parts). -/
theorem reassembly_frame (pkg : List (List Char × List Char))
    (translatedXml : List Char) (proc : List Char → List Char → List Char) :
    (translate_document_rezip pkg translatedXml).map Prod.fst = pkg.map Prod.fst ∧
    (∀ e, e ∈ pkg → e.1 ≠ docPath →
      e ∈ translate_document_rezip pkg translatedXml) ∧
    (translate_docx_parts proc pkg).map Prod.fst = pkg.map Prod.fst ∧
    (∀ e, e ∈ pkg → isTargetPart e.1 = false →
      e ∈ translate_docx_parts proc pkg) := by
  refine ⟨?_, ?_, ?_, ?_⟩
  · rw [translate_document_rezip, List.map_map]
    apply List.map_congr_left
    intro e _
    by_cases h : e.1 = docPath <;> simp [h]
  · intro e he hne
    have : (if e.1 = docPath then (docPath, translatedXml) else e) = e := if_neg hne
    rw [translate_document_rezip]
    exact this ▸ List.mem_map_of_mem _ he
  · rw [translate_docx_parts, List.map_map]
    apply List.map_congr_left
    intro e _
    by_cases h : isTargetPart e.1 <;> simp [h]
  · intro e he hne
    have : (if isTargetPart e.1 then (e.1, proc e.1 e.2) else e) = e := by
      rw [hne]
      rfl
    rw [translate_docx_parts]
    exact this ▸ List.mem_map_of_mem _ he

/-- Witness for C1 on a concrete two-member package: the non-targeted image
member survives byte-identically and the path list is unchanged. -/
theorem reassembly_frame_witness :
    ("word/media/img1.png".toList, "IMGBYTES".toList) ∈
      translate_document_rezip
        [(docPath, "OLD".toList), ("word/media/img1.png".toList, "IMGBYTES".toList)]
        "NEW".toList ∧
    (translate_docx_parts (fun _ c => c)
        [(docPath, "OLD".toList), ("word/media/img1.png".toList, "IMGBYTES".toList)]).map
        Prod.fst =
      [(docPath, "OLD".toList), ("word/media/img1.png".toList, "IMGBYTES".toList)].map
        Prod.fst := by
  refine ⟨?_, ?_⟩
  · exact (reassembly_frame
      [(docPath, "OLD".toList), ("word/media/img1.png".toList, "IMGBYTES".toList)]
      "NEW".toList (fun _ c => c)).2.1 _ (by simp) (by decide)
  · exact (reassembly_frame
      [(docPath, "OLD".toList), ("word/media/img1.png".toList, "IMGBYTES".toList)]
      "NEW".toList (fun _ c => c)).2.2.1

/-- Python `s.find(pat)`: the first index at which `pat` occurs in `s`, for a
nonempty pattern. -/
def pyFind (s pat : List Char) : Option Nat :=
  (List.range s.length).find? (fun i => pat == (s.drop i).take pat.length)

/-- The sentence-boundary markers `_create_translation_context` probes, in
the order the Python list literal gives them. -/
def sentencePuncts : List (List Char) :=
  [['.', ' '], ['!', ' '], ['?', ' '], ['.', '\n'], ['!', '\n'], ['?', '\n']]

/-- The first boundary hit of the Python loop `for punct in [...]`: the first
marker in the fixed order that occurs anywhere in the window, together with
its first occurrence index. -/
def findSentencePunct (window : List Char) : Option Nat :=
  sentencePuncts.findSome? (fun p => pyFind window p)

/-- Embedding of `PdfTranslator._create_translation_context`
(src/translator/pdf_translator.py lines 122-166). Note the negative-slice
semantics of `new_translation[-(max_context_length - start_pos - 2):]`: when
the subtrahend is zero, Python's `-0` start index denotes the beginning of
the string, so the whole translation is returned. -/
def create_translation_context (cur newTr : List Char) (maxLen : Nat) : List Char :=
  let sep := if cur ≠ [] ∧ newTr ≠ [] then [' '] else []
  let combined := cur ++ sep ++ newTr
  if combined.length ≤ maxLen then combined
  else if maxLen < newTr.length then
    match findSentencePunct (newTr.drop (newTr.length - maxLen)) with
    | some pos =>
      if maxLen - pos - 2 = 0 then newTr
      else newTr.drop (newTr.length - (maxLen - pos - 2))
    | none => newTr.drop (newTr.length - maxLen)
  else
    let truncated := combined.drop (combined.length - maxLen)
    match findSentencePunct truncated with
    | some pos => truncated.drop (pos + 2)
    | none => truncated

/-- C2: the context-window bound is violated. With an empty current context,
the new translation "aaxx. " and a maximum context length of 4, the sentence
boundary ". " is found at index 2 of the 4-character window, so the code
computes the start slice index `-(4 - 2 - 2) = -0` and returns the entire
6-character translation, exceeding the configured bound of 4. -/
theorem create_translation_context_exceeds_bound :
    create_translation_context [] "aaxx. ".toList 4 = "aaxx. ".toList ∧
      4 < (create_translation_context [] "aaxx. ".toList 4).length := by
  constructor <;> decide

/-- Embedding of `BaseTranslator._get_tone_prompt`
(src/translator/base_translator.py lines 62-72): `None` maps to the long
neutral sentence, the lowercased tone is looked up in the fixed table, and
any unrecognized value falls back to "Use a neutral tone.". -/
def get_tone_prompt (tone domain : Option (List Char)) : List Char :=
  match tone with
  | none => "Use a neutral tone that is objective, informative, and unbiased.".toList
  | some t =>
    let lt := t.map Char.toLower
    if lt = "formal".toList then
      "Use a formal and professional tone appropriate for official documents.".toList
    else if lt = "informal".toList then
      "Use an informal and conversational tone that is friendly and engaging.".toList
    else if lt = "technical".toList then
      "Use a technical tone appropriate for ".toList ++
        (match domain with
         | some d => d
         | none => "professional".toList) ++ " writing.".toList
    else
      "Use a neutral tone.".toList

/-- Python `s.replace(":", ": ")` on a character list. -/
def replaceColon : List Char → List Char
  | [] => []
  | c :: rest => if c = ':' then ':' :: ' ' :: replaceColon rest else c :: replaceColon rest

/-- Python `s.split(";")` on a character list. -/
def splitOnSemicolon : List Char → List (List Char)
  | [] => [[]]
  | c :: rest =>
    if c = ';' then [] :: splitOnSemicolon rest
    else
      match splitOnSemicolon rest with
      | [] => [[c]]
      | h :: t => (c :: h) :: t

/-- Python `"\n".join(parts)` on character lists. -/
def joinNewline : List (List Char) → List Char
  | [] => []
  | [p] => p
  | p :: rest => p ++ '\n' :: joinNewline rest

/-- Embedding of `BaseTranslator._get_glossary_prompt`
(src/translator/base_translator.py lines 82-89). The code evaluates
`glossary.replace(":", ": ")` before any `None` check, so a `None` glossary
(the `TranslationConfig` default) raises `AttributeError`, modelled as the
error branch; a string glossary is reformatted into one "term: definition"
line per semicolon-separated entry, with the placeholder sentence used when
the reformatted string is empty. -/
def get_glossary_prompt : Option (List Char) → Except (List Char) (List Char)
  | none => Except.error "AttributeError".toList
  | some g =>
    let reformatted := joinNewline (splitOnSemicolon (replaceColon g))
    if reformatted ≠ [] then
      Except.ok
        ("Use the following glossary to ensure accurate translations:\n".toList ++
          reformatted)
    else
      Except.ok "No specific glossary provided.".toList

/-- C7: prompt rendering is not total. A `None` glossary — the
`TranslationConfig` default — raises `AttributeError` inside
`_get_glossary_prompt` because `.replace` runs before the emptiness check;
for string glossaries the reformatting into one "term: definition" line per
entry works, the empty glossary is a no-op placeholder, and the tone clause
does fall back to the neutral sentence on unrecognized values. -/
theorem get_glossary_prompt_none_raises :
    get_glossary_prompt none = Except.error "AttributeError".toList ∧
    get_glossary_prompt (some "a:b;c:d".toList) =
      Except.ok
        ("Use the following glossary to ensure accurate translations:\n".toList ++
          "a: b\nc: d".toList) ∧
    get_glossary_prompt (some []) = Except.ok "No specific glossary provided.".toList ∧
    get_tone_prompt (some "shouty".toList) none = "Use a neutral tone.".toList := by
  exact ⟨rfl, rfl, rfl, by decide⟩

/-- Python `s.strip()` on a character list: drop whitespace from both ends. -/
def pyStrip (t : List Char) : List Char :=
  ((t.dropWhile Char.isWhitespace).reverse.dropWhile Char.isWhitespace).reverse

/-- The early-return test of `BaseTranslator.translate_text`
(src/translator/base_translator.py line 93): `not text.strip() or
len(text.strip()) == 1`. -/
def isTrivialUnit (text : List Char) : Bool :=
  (pyStrip text).isEmpty || (pyStrip text).length == 1

/-- The auto-detection test of `BaseTranslator.translate_text`
(src/translator/base_translator.py lines 96-99): `not config.source_language
or config.source_language.lower() in ["auto", "automatisch erkennen"]`. -/
def isAutoSource : Option (List Char) → Bool
  | none => true
  | some s =>
    s.isEmpty || s.map Char.toLower == "auto".toList ||
      s.map Char.toLower == "automatisch erkennen".toList

/-- Python `s.replace("ß", "ss")` on a character list. -/
def replaceEszett : List Char → List Char
  | [] => []
  | c :: rest =>
    if c = 'ß' then 's' :: 's' :: replaceEszett rest else c :: replaceEszett rest

/-- Embedding of `BaseTranslator._process_response`
(src/translator/base_translator.py lines 117-124): strip, apply the
ss-digraph substitution, then slice from after the opening wrapper tag (when
present) up to the closing tag; when the closing tag is absent Python's
`find` yields -1 and the slice `[start:-1]` ends one character early. -/
def process_response (t : List Char) : List Char :=
  let t2 := replaceEszett (pyStrip t)
  let start :=
    if "<translation_text>".toList == t2.take 18 then 18 else 0
  match pyFind t2 "</translation_text>".toList with
  | some e => (t2.drop start).take (e - start)
  | none => (t2.drop start).take (t2.length - 1 - start)

/-- The `TranslationConfig` dataclass (src/translator/config.py lines
22-31). -/
structure TranslationConfig where
  target_language : List Char
  source_language : Option (List Char)
  domain : Option (List Char)
  tone : Option (List Char)
  glossary : Option (List Char)
  context : Option (List Char)
deriving DecidableEq

/-- Embedding of `BaseTranslator.translate_text`
(src/translator/base_translator.py lines 91-115) as an explicit state
transformer over its mutable `config` argument. The language-detection
capability is the `detect` oracle and the completion call's output is the
`llmResponse` parameter (prompt rendering only feeds the external call, so it
cannot affect the returned pair). The function returns the translated text
together with the config object as it is left after the call. -/
def translate_text_base (detect : List Char → Option (List Char))
    (llmResponse text : List Char) (config : TranslationConfig) :
    List Char × TranslationConfig :=
  if isTrivialUnit text then (text, config)
  else
    let config2 :=
      if isAutoSource config.source_language then
        { config with source_language := detect text }
      else config
    let out := process_response llmResponse
    (out ++ (if text.getLast? = some '\r' then ['\r'] else []), config2)

/-- C10 counterexample: for the single-space text the function returns before
the detection step, so a config with an unset source language is left
untouched even though the detection oracle would have produced "de" — the
claim's "whenever config.source_language is unset" does not hold for trivial
texts. -/
theorem translate_text_trivial_counterexample :
    (translate_text_base (fun _ => some "de".toList) [] [' ']
        ⟨"German".toList, none, none, none, none, none⟩).2.source_language = none ∧
      (some "de".toList : Option (List Char)) ≠ none := by
  exact ⟨rfl, by decide⟩

/-- C10 amended: whenever the text is non-trivial (its stripped form is
non-empty and longer than one character) and the source language is unset or
an auto-detect value, `translate_text` overwrites `config.source_language`
in place with the detected language and modifies no other field; in every
other case the config object is returned completely unchanged, and a trivial
text is echoed back untranslated. -/
theorem translate_text_config_frame (detect : List Char → Option (List Char))
    (llmResponse text : List Char) (config : TranslationConfig) :
    (isTrivialUnit text = false → isAutoSource config.source_language = true →
      (translate_text_base detect llmResponse text config).2 =
        { config with source_language := detect text }) ∧
    (isTrivialUnit text = false → isAutoSource config.source_language = false →
      (translate_text_base detect llmResponse text config).2 = config) ∧
    (isTrivialUnit text = true →
      translate_text_base detect llmResponse text config = (text, config)) := by
  refine ⟨?_, ?_, ?_⟩
  · intro h1 h2
    simp [translate_text_base, h1, h2]
  · intro h1 h2
    simp [translate_text_base, h1, h2]
  · intro h1
    simp [translate_text_base, h1]

/-- Witness for C10 (amended): on the non-trivial text "Hello." with an unset
source language, the returned config carries the detected language "de" and
no other change. -/
theorem translate_text_config_frame_witness :
    (translate_text_base (fun _ => some "de".toList) [] "Hello.".toList
        ⟨"German".toList, none, none, none, none, none⟩).2 =
      ⟨"German".toList, some "de".toList, none, none, none, none⟩ :=
  (translate_text_config_frame (fun _ => some "de".toList) [] "Hello.".toList
    ⟨"German".toList, none, none, none, none, none⟩).1 (by decide) (by decide)

/-- A text leaf of the markup tree: its literal text plus the serialized
formatting properties of its enclosing run — `get_run_properties` returns
`None` when the run has no properties element, so the format key is
optional. -/
structure XmlLeaf where
  text : List Char
  fmt : Option (List Char)
deriving DecidableEq

/-- The skip test of the `process_xml` leaf loop (src/xml_translate.py line
159): `not elem.text or not elem.text.strip()`. -/
def isBlankText (t : List Char) : Bool :=
  (pyStrip t).isEmpty

/-- Embedding of the leaf loop of `process_xml` (src/xml_translate.py lines
152-197) for one paragraph, from the state "a segment with format key `f` is
currently accumulating". The first component collects the leaf texts merged
into the current segment (to be owned by that segment's anchor, if any); the
second component is the transformed remainder of the paragraph. Blank leaves
are passed through untouched; a leaf whose format key equals `f` is merged
(its text appended, the leaf cleared); a differing leaf anchors a new
segment whose text is the translation of its merged texts, with `tr`
standing for the `translate_text` capability (the rolling
`previous_translation` context only feeds the capability, so it is folded
into `tr`). -/
def afterSeg (tr : List Char → List Char) (f : Option (List Char)) :
    List XmlLeaf → List (List Char) × List XmlLeaf
  | [] => ([], [])
  | l :: rest =>
    if isBlankText l.text then
      let r := afterSeg tr f rest
      (r.1, l :: r.2)
    else if l.fmt = f then
      let r := afterSeg tr f rest
      (l.text :: r.1, { l with text := [] } :: r.2)
    else
      let r := afterSeg tr l.fmt rest
      ([], { l with text := tr (l.text :: r.1).flatten } :: r.2)

/-- One paragraph of `process_xml`: the loop starts with
`current_format = None` and `current_elem = None`, so the initial
accumulation compares format keys against `None` and its collected texts are
discarded, because the final flush requires `current_elem is not None`. -/
def process_xml_paragraph (tr : List Char → List Char)
    (leaves : List XmlLeaf) : List XmlLeaf :=
  (afterSeg tr none leaves).2

/-- C3: the write-back contract is broken by the code. In a paragraph whose
leaves carry no run-properties element, every format key is `None` and so
equals the loop's initial `current_format = None`; each leaf is therefore
treated as a continuation of a segment that has no anchor
(`current_elem = None`), its text is cleared, and the final flush is skipped.
For every translation capability the paragraph comes out with all leaves
empty: the segment's source text "Hello world." is discarded and no
translation is written to any leaf, contradicting the claim that the first
leaf anchors the segment and receives the translated text. -/
theorem process_xml_discards_unformatted_runs (tr : List Char → List Char) :
    process_xml_paragraph tr
        [⟨"Hello ".toList, none⟩, ⟨"world.".toList, none⟩] =
      [⟨[], none⟩, ⟨[], none⟩] := rfl
